import Mathlib

/-!
Verification of the RSS-Flow feed synchronization engine.

This file shallowly embeds the core of the repository:
* the data model (`src/types.ts`),
* the merge step of the refresh orchestrator (`handleRefreshAll` in the
  `useFeeds` hook),
* the retention-and-dedup sweep (`cleanupOldArticles`),
* the strategy-chain fetcher (`fetchFeed` in `src/services/rssParser.ts`),
* the snippet derivation of the markup normalizer (`parseWithFallback`),
* the persistence layer (`saveData` / `loadData` in `src/services/db.ts`),

and proves or refutes the frozen specification claims about them.

Modelling conventions:
* JavaScript strings are modelled by `String` (and, where character-level
  operations matter, by `List Char`).  Optional string fields that the code
  only ever tests for truthiness are modelled as `String` with `""` standing
  for both `undefined` and the empty string — the two are indistinguishable
  under JS truthiness, which is the only way the core inspects them.
  Optional boolean flags are modelled as `Bool` with `false` for `undefined`.
* `Date.now()` and parsed dates are modelled as `Int` milliseconds; the
  implementation-defined `new Date(s).getTime()` parse is a parameter
  `pd : String → Option Int` (`none` models `NaN`).
* Network effects are modelled by passing each strategy's / each feed's
  settled outcome as data.
-/

namespace RSSFlow

/-- Structure `FeedItem` from `src/types.ts`.  Absent optional strings are `""`,
absent optional booleans are `false` (JS-truthiness-faithful). -/
structure FeedItem where
  id : String := ""
  title : String := ""
  link : String := ""
  pubDate : String := ""
  content : String := ""
  contentSnippet : String := ""
  guid : String := ""
  author : String := ""
  thumbnail : String := ""
  isFavorite : Bool := false
  isRead : Bool := false
  isReadLater : Bool := false
  feedTitle : String := ""
  feedUrl : String := ""
  aiSummary : String := ""
  deriving DecidableEq, Repr

/-- Structure `Feed` from `src/types.ts`. -/
structure Feed where
  url : String
  title : String := ""
  description : String := ""
  items : List FeedItem := []
  lastUpdated : Int := 0
  favicon : Option String := none
  categoryId : String := ""
  isMuted : Bool := false
  deriving DecidableEq, Repr

/-! ### Retention & dedup sweep (`cleanupOldArticles`, `useFeeds` hook) -/

/-- The age-filter predicate of `cleanupOldArticles` (first pass):
keep if favorite or read-later; keep if the pubDate does not parse
(`isNaN`); otherwise keep iff strictly newer than the cutoff
(`pubDate > thirtyDaysAgo`). -/
def keepItem (pd : String → Option Int) (cutoff : Int) (item : FeedItem) : Bool :=
  if item.isFavorite || item.isReadLater then true
  else
    match pd item.pubDate with
    | none => true
    | some t => decide (t > cutoff)

/-- First pass of the sweep, per feed: filter by `keepItem`; the JS code
returns the same feed object when the length did not change, else a copy
with the filtered list. -/
def ageFilterFeed (pd : String → Option Int) (cutoff : Int) (feed : Feed) : Feed :=
  let newItems := feed.items.filter (keepItem pd cutoff)
  if newItems.length = feed.items.length then feed
  else { feed with items := newItems }

/-- The dedup key used by the sweep: `item.id || item.guid || item.link`
(first truthy wins). -/
def dedupKey (item : FeedItem) : String :=
  if item.id ≠ "" then item.id
  else if item.guid ≠ "" then item.guid
  else item.link

/-- Second pass of the sweep, per feed: one shared `seen` set holds both
dedup keys and non-empty links of the items kept so far; an item is kept
iff its key is not in the set and its link is empty or not in the set. -/
def dedupGo (seen : List String) : List FeedItem → List FeedItem
  | [] => []
  | item :: rest =>
    let key := dedupKey item
    let linkKey := item.link
    if ¬ key ∈ seen ∧ (linkKey = "" ∨ ¬ linkKey ∈ seen) then
      item :: dedupGo (if linkKey = "" then key :: seen else key :: linkKey :: seen) rest
    else
      dedupGo seen rest

def dedupItems (items : List FeedItem) : List FeedItem :=
  dedupGo [] items

/-- Per-feed wrapper of the dedup pass, mirroring the length check of the
JS code (`uniqueFeedItems.length !== feed.items.length`). -/
def dedupFeed (feed : Feed) : Feed :=
  let uniqueFeedItems := dedupItems feed.items
  if uniqueFeedItems.length = feed.items.length then feed
  else { feed with items := uniqueFeedItems }

/-- Function `cleanupOldArticles` from the `useFeeds` hook: age pass, then dedup
pass; the original array is returned when nothing changed.  The JS
`hasChanges` flag is raised exactly when one of the two passes shrank some
feed's item list; since both passes only remove items this is equivalent to
the final item count differing from the original one, which is how it is
computed here. -/
def cleanupOldArticles (pd : String → Option Int) (now : Int) (feeds : List Feed) : List Feed :=
  let thirtyDaysAgo := now - 30 * 24 * 60 * 60 * 1000
  let newFeeds := feeds.map (ageFilterFeed pd thirtyDaysAgo)
  let finalFeeds := newFeeds.map dedupFeed
  let hasChanges := (feeds.zip finalFeeds).any fun p => p.2.items.length != p.1.items.length
  if hasChanges then finalFeeds else feeds

/-! ### Merge step of the refresh orchestrator (`handleRefreshAll`) -/

/-- The dedup filter of the merge in `handleRefreshAll`:
`hasGuid = i.guid && existingGuids.has(i.guid)`,
`hasLink = i.link && existingLinks.has(i.link)`, keep iff
`!hasGuid && !hasLink` — a falsy (empty) guid or link never counts as a
duplicate.  Kept items are then given `id = item.guid || item.link` and the
feed back-references. -/
def newItemsOf (feed : Feed) (fetchedItems : List FeedItem) : List FeedItem :=
  let existingGuids := feed.items.map (fun i => i.guid)
  let existingLinks := feed.items.map (fun i => i.link)
  (fetchedItems.filter fun i =>
      let hasGuid := i.guid != "" && existingGuids.contains i.guid
      let hasLink := i.link != "" && existingLinks.contains i.link
      !hasGuid && !hasLink).map fun item =>
    { item with
      id := if item.guid ≠ "" then item.guid else item.link
      feedTitle := feed.title
      feedUrl := feed.url }

/-- The per-feed merge of `handleRefreshAll` on a successful fetch:
compute `newItems`, optionally rewrite the content of the first 20 of them
through the offline-content processor (`processContentForOffline`, modelled
by `proc`; a failing rewrite leaves the item unmodified), then prepend them
and stamp `lastUpdated = Date.now()` (modelled by `now`) — or return the
feed unchanged when there is nothing new. -/
def mergeFeed (downloadImages : Bool) (proc : String → Except Unit String)
    (now : Int) (feed : Feed) (fetchedItems : List FeedItem) : Feed :=
  let newItems := newItemsOf feed fetchedItems
  let newItems :=
    if downloadImages && newItems.length > 0 then
      (newItems.take 20).map (fun item =>
        match proc item.content with
        | .ok c => { item with content := c }
        | .error _ => item) ++ newItems.drop 20
    else newItems
  if newItems.length > 0 then
    { feed with items := newItems ++ feed.items, lastUpdated := now }
  else feed

/-- The JS `new Map(results.map(f => [f.url, f]))` lookup: on duplicate
urls the last insertion wins, hence the reversed search. -/
def jsMapGet (results : List Feed) (url : String) : Option Feed :=
  results.reverse.find? fun r => r.url = url

/-- JS `url.startsWith('local://')` (the local/synthetic-source test of
`handleRefreshAll`), implemented over the character list so that concrete
instances evaluate by `decide`. -/
def startsWithLocal (url : String) : Bool :=
  List.isPrefixOf "local://".toList url.toList

/-- The per-feed body of the `pMap` worker closure in `handleRefreshAll`:
run the strategy chain on the feed's url (its settled outcome is the data
`fetchResult feed.url`), merge on success, and on failure (exhausted
strategy chain) return the feed unchanged. -/
def refreshOne (fetchResult : String → Except String (List FeedItem))
    (downloadImages : Bool) (proc : String → Except Unit String) (now : Int)
    (feed : Feed) : Feed :=
  match fetchResult feed.url with
  | .ok fetchedItems => mergeFeed downloadImages proc now feed fetchedItems
  | .error _ => feed

/-- Function `handleRefreshAll` from the `useFeeds` hook, as the pure collection
transform it applies: filter out `local://` feeds, run `refreshOne` on
each remaining feed (`failedCount` counts the failures), and reassemble
over the original collection by url.  Returns the new collection and
`failedCount`. -/
def handleRefreshAll (fetchResult : String → Except String (List FeedItem))
    (downloadImages : Bool) (proc : String → Except Unit String) (now : Int)
    (feeds : List Feed) : List Feed × Nat :=
  let feedsToUpdate := feeds.filter fun f => !startsWithLocal f.url
  if feedsToUpdate.isEmpty then (feeds, 0)
  else
    let results := feedsToUpdate.map (refreshOne fetchResult downloadImages proc now)
    let failedCount := feedsToUpdate.countP fun feed =>
      match fetchResult feed.url with
      | .ok _ => false
      | .error _ => true
    ((feeds.map fun f => (jsMapGet results f.url).getD f), failedCount)

/-! ### Strategy-chain fetcher (`fetchFeed`, `src/services/rssParser.ts`) -/

/-- Errors `fetchFeed` can fail with: the cancellation error
(`Error('Request cancelled')`) or the final aggregate error.  The code's
aggregate message is
`"Unable to fetch feed. All strategies failed. Details: " ++ errors.join("; ")`
where each pushed entry is `"<name> failed: <reason>"`; the `entries` list
here carries those `(strategyName, reason)` pairs. -/
inductive FetchError where
  | cancelled
  | aggregate (entries : List (String × String))
  deriving DecidableEq, Repr

/-- Post-success favicon enrichment (`if (!feed.favicon && url.startsWith('http'))`):
`fav` is the icon-lookup URL derived from the feed URL's host, or `none`
when the URL is not http or host extraction throws. -/
def ensureFavicon (fav : Option String) (feed : Feed) : Feed :=
  match feed.favicon with
  | some _ => feed
  | none => { feed with favicon := fav }

/-- The strategy loop of `fetchFeed`.  Each chain element is the strategy's
name paired with the outcome its timeout-raced attempt settles with
(`Except.error msg` models a rejection with message `msg`; a timeout
settles as `"Timeout after 10000ms"`, an abort as `"Request cancelled"`).
`aborted` models `signal?.aborted`, checked at the top of every iteration;
an error message equal to `"Request cancelled"` is re-thrown, any other
failure is recorded and the next strategy is tried. -/
def fetchGo (aborted : Bool) (fav : Option String) :
    List (String × Except String Feed) → List (String × String) →
    Except FetchError Feed
  | [], errors => .error (.aggregate errors)
  | (name, outcome) :: rest, errors =>
    if aborted then .error .cancelled
    else
      match outcome with
      | .ok feed => .ok (ensureFavicon fav feed)
      | .error msg =>
        if msg = "Request cancelled" then .error .cancelled
        else fetchGo aborted fav rest (errors ++ [(name, msg)])

/-- Function `fetchFeed`: run the strategy chain with an empty error accumulator. -/
def fetchFeedModel (strategies : List (String × Except String Feed))
    (aborted : Bool) (fav : Option String) : Except FetchError Feed :=
  fetchGo aborted fav strategies []

/-- The fixed strategy priority order of `STRATEGIES`. -/
def STRATEGY_NAMES : List String :=
  ["Native/Direct", "RSS2JSON Service", "AllOrigins", "CorsProxy"]

/-! ### Durable store (`src/services/db.ts`) -/

/-- A thrown JS error value as `saveData`/`loadData` inspect it: whether it
is a `DOMException`, and its `name`.  (The message plays no role in the
control flow.) -/
inductive JSError where
  | domException (name : String)
  | otherError (name : String)
  deriving DecidableEq, Repr

def JSError.name : JSError → String
  | .domException n => n
  | .otherError n => n

/-- How one `saveData` call's underlying IndexedDB work settles:
the `put` request succeeds; the `put` request errors (`request.onerror`)
with `request.error = err`; or opening the DB / creating the transaction
throws `err` (caught by the outer `try/catch`). -/
inductive SaveOutcome where
  | putSuccess
  | putError (err : JSError)
  | setupThrow (err : JSError)
  deriving DecidableEq, Repr

/-- What the caller of `saveData` observes. -/
inductive SaveResult where
  | ok
  | storageQuotaError (message : String)
  | failed (err : JSError)
  deriving DecidableEq, Repr

def quotaMessage : String :=
  "Storage quota exceeded. Please clear cache or remove old data."

/-- Function `saveData` (`src/services/db.ts` lines 38-63): on a `put` request
error, rejects with `StorageQuotaError` iff `request.error?.name ===
'QuotaExceededError'`, else rejects with the original error; a throw
during setup is converted iff it is a `DOMException` named
`QuotaExceededError`, else re-thrown unchanged. -/
def saveData : SaveOutcome → SaveResult
  | .putSuccess => .ok
  | .putError err =>
    if err.name = "QuotaExceededError" then .storageQuotaError quotaMessage
    else .failed err
  | .setupThrow err =>
    match err with
    | .domException n =>
      if n = "QuotaExceededError" then .storageQuotaError quotaMessage
      else .failed err
    | .otherError _ => .failed err

/-- A JS value as stored in / returned from the object store, with JS
truthiness. -/
inductive JSValue where
  | undefined
  | jsNull
  | jsBool (b : Bool)
  | jsNum (n : Int)
  | jsStr (s : String)
  deriving DecidableEq, Repr

def JSValue.truthy : JSValue → Bool
  | .undefined => false
  | .jsNull => false
  | .jsBool b => b
  | .jsNum n => n != 0
  | .jsStr s => s != ""

/-- Function `loadData` (`src/services/db.ts` lines 65-75): `request.result` is the
stored value, or `undefined` when the key is absent; the handler resolves
`request.result || null`. -/
def loadData (stored : Option JSValue) : JSValue :=
  let result := stored.getD .undefined
  if result.truthy then result else .jsNull

/-! ### Snippet derivation of the markup normalizer (`parseWithFallback`) -/

def isJSWhitespace (c : Char) : Bool :=
  c = ' ' || c = '\t' || c = '\n' || c = '\r'

/-- Models the `tempDiv.innerHTML = body; tempDiv.textContent` round trip
for plain markup: the text outside `<...>` tag spans.  (Entity decoding and
script/style special cases are beyond this model; no claim depends on
them.)  The boolean state is "currently inside a tag". -/
def stripTagsGo : Bool → List Char → List Char
  | _, [] => []
  | true, c :: rest =>
    if c = '>' then stripTagsGo false rest else stripTagsGo true rest
  | false, c :: rest =>
    if c = '<' then stripTagsGo true rest else c :: stripTagsGo false rest

def textContentOfHTML (body : String) : List Char :=
  stripTagsGo false body.toList

/-- JS `String.prototype.trim` on a character list: drop whitespace from
both ends. -/
def trimChars (l : List Char) : List Char :=
  ((l.dropWhile isJSWhitespace).reverse.dropWhile isJSWhitespace).reverse

/-- The snippet computed in the RSS and Atom branches of
`parseWithFallback`:
`tempDiv.textContent?.slice(0, 150).trim() + '...'` — tag-stripped body,
first 150 characters, trimmed, ellipsis appended.  (The trailing `|| ''`
in the source is dead: a string ending in `'...'` is never falsy.) -/
def jsSnippet (body : String) : String :=
  (trimChars ((textContentOfHTML body).take 150)).asString ++ "..."

/-- Snippet assignment in the RSS branch (`rssParser.ts` lines 89-91). -/
def rssSnippet (body : String) : String := jsSnippet body

/-- Snippet assignment in the Atom branch (`rssParser.ts` lines 128-130). -/
def atomSnippet (body : String) : String := jsSnippet body

/-- Snippet assignment in the RDF branch (`rssParser.ts` line 158):
the literal `contentSnippet: ''`. -/
def rdfSnippet (_body : String) : String := ""

/-- Collapse whitespace runs to single spaces. -/
def collapseWS : List Char → List Char
  | [] => []
  | c :: rest =>
    if isJSWhitespace c then
      match collapseWS rest with
      | [] => [' ']
      | d :: ds => if d = ' ' then d :: ds else ' ' :: d :: ds
    else c :: collapseWS rest

/-- Modelled from the spec's words ("strip all markup tags from body,
collapse whitespace, truncate to 150 characters, append ellipsis"): the
snippet the claim says every schema branch derives.  Used only to compare
against the code's `jsSnippet` / `rdfSnippet`. -/
def specSnippet (body : String) : String :=
  ((collapseWS (textContentOfHTML body)).take 150).asString ++ "..."

/-! ### Helper lemmas for the strategy chain -/

theorem fetchGo_all_failed (fav : Option String) (attempts : List (String × String))
    (errors : List (String × String))
    (h : ∀ p ∈ attempts, p.2 ≠ "Request cancelled") :
    fetchGo false fav (attempts.map fun p => (p.1, Except.error p.2)) errors
      = .error (.aggregate (errors ++ attempts)) := by
  induction attempts generalizing errors with
  | nil => simp [fetchGo]
  | cons a rest ih =>
    have ha : a.2 ≠ "Request cancelled" := h a (by simp)
    have hrest : ∀ p ∈ rest, p.2 ≠ "Request cancelled" := fun p hp => h p (by simp [hp])
    simp [fetchGo, ha, ih (errors ++ [(a.1, a.2)]) hrest]

theorem fetchGo_cancelled_mid (fav : Option String) (pre : List (String × String))
    (name : String) (rest : List (String × Except String Feed))
    (errors : List (String × String))
    (h : ∀ p ∈ pre, p.2 ≠ "Request cancelled") :
    fetchGo false fav
      ((pre.map fun p => (p.1, Except.error p.2)) ++
        (name, Except.error "Request cancelled") :: rest) errors
      = .error .cancelled := by
  induction pre generalizing errors with
  | nil => simp [fetchGo]
  | cons a t ih =>
    have ha : a.2 ≠ "Request cancelled" := h a (by simp)
    have ht : ∀ p ∈ t, p.2 ≠ "Request cancelled" := fun p hp => h p (by simp [hp])
    simp [fetchGo, ha, ih (errors ++ [(a.1, a.2)]) ht]

/-! ### Claim theorems: fetcher (C2, C6) -/

/-- C2: when every strategy in the chain fails and no failure is a
cancellation, `fetchFeed` fails with exactly one aggregate error whose
reason list has one `(strategyName, reason)` entry per attempted strategy,
in strategy priority order, none omitted or duplicated. -/
theorem fetchFeed_exhaustion_aggregate (fav : Option String)
    (attempts : List (String × String))
    (h : ∀ p ∈ attempts, p.2 ≠ "Request cancelled") :
    fetchFeedModel (attempts.map fun p => (p.1, Except.error p.2)) false fav
      = .error (.aggregate attempts) := by
  simpa [fetchFeedModel] using fetchGo_all_failed fav attempts [] h

/-- Witness for C2: the four real strategies all fail; the aggregate error
lists their four reasons in chain order. -/
theorem fetchFeed_exhaustion_aggregate_witness :
    fetchFeedModel
      [("Native/Direct", Except.error "HTTP 500"),
       ("RSS2JSON Service", Except.error "Timeout after 10000ms"),
       ("AllOrigins", Except.error "HTTP 403"),
       ("CorsProxy", Except.error "Empty body")] false none
      = .error (.aggregate
          [("Native/Direct", "HTTP 500"),
           ("RSS2JSON Service", "Timeout after 10000ms"),
           ("AllOrigins", "HTTP 403"),
           ("CorsProxy", "Empty body")]) :=
  fetchFeed_exhaustion_aggregate none
    [("Native/Direct", "HTTP 500"),
     ("RSS2JSON Service", "Timeout after 10000ms"),
     ("AllOrigins", "HTTP 403"),
     ("CorsProxy", "Empty body")] (by decide)

/-- C6: an already-aborted signal makes `fetchFeed` fail immediately with
the cancellation error (for any non-empty chain); and a strategy attempt
that settles with the cancellation error is re-thrown at once — the result
is the cancellation error whatever the remaining strategies are, so no
subsequent strategy is ever consulted. -/
theorem fetchFeed_cancellation_no_fallthrough :
    (∀ (strategies : List (String × Except String Feed)) (fav : Option String),
        strategies ≠ [] → fetchFeedModel strategies true fav = .error .cancelled) ∧
    (∀ (pre : List (String × String)) (name : String)
        (rest : List (String × Except String Feed)) (fav : Option String),
        (∀ p ∈ pre, p.2 ≠ "Request cancelled") →
        fetchFeedModel
          ((pre.map fun p => (p.1, Except.error p.2)) ++
            (name, Except.error "Request cancelled") :: rest) false fav
          = .error .cancelled) := by
  constructor
  · intro strategies fav hne
    match strategies with
    | [] => exact absurd rfl hne
    | s :: rest => simp [fetchFeedModel, fetchGo]
  · intro pre name rest fav h
    exact fetchGo_cancelled_mid fav pre name rest [] h

/-- Witness for C6: a pre-aborted pipeline fails with the cancellation
error even though strategy A would merely fail; and a cancellation settling
at strategy B is re-thrown with strategy C still pending. -/
theorem fetchFeed_cancellation_no_fallthrough_witness :
    fetchFeedModel [("Native/Direct", Except.error "HTTP 500")] true none
      = .error .cancelled ∧
    fetchFeedModel
      [("Native/Direct", Except.error "HTTP 500"),
       ("RSS2JSON Service", Except.error "Request cancelled"),
       ("AllOrigins", Except.error "HTTP 403")] false none
      = .error .cancelled :=
  ⟨fetchFeed_cancellation_no_fallthrough.1
      [("Native/Direct", Except.error "HTTP 500")] none (by simp),
   fetchFeed_cancellation_no_fallthrough.2
      [("Native/Direct", "HTTP 500")] "RSS2JSON Service"
      [("AllOrigins", Except.error "HTTP 403")] none (by decide)⟩

/-! ### Claim theorems: durable store (C9, C10) -/

/-- C9: a failing `put` request is surfaced as `StorageQuotaError` exactly
when the underlying error is named `QuotaExceededError`; every other write
failure is propagated unconverted, and the quota failure is distinguishable
by type from any generic failure. -/
theorem saveData_quota_taxonomy (err : JSError) :
    (err.name = "QuotaExceededError" →
      saveData (SaveOutcome.putError err) = SaveResult.storageQuotaError quotaMessage) ∧
    (err.name ≠ "QuotaExceededError" →
      saveData (SaveOutcome.putError err) = SaveResult.failed err) ∧
    (∀ (m : String) (e : JSError),
      SaveResult.storageQuotaError m ≠ SaveResult.failed e) := by
  refine ⟨fun h => ?_, fun h => ?_, fun m e => by simp⟩
  · simp [saveData, h]
  · simp [saveData, h]

/-- Witness for C9: a quota-named request error becomes the typed quota
failure; an abort-named request error is propagated as itself. -/
theorem saveData_quota_taxonomy_witness :
    saveData (SaveOutcome.putError (JSError.domException "QuotaExceededError"))
      = SaveResult.storageQuotaError quotaMessage ∧
    saveData (SaveOutcome.putError (JSError.otherError "AbortError"))
      = SaveResult.failed (JSError.otherError "AbortError") :=
  ⟨(saveData_quota_taxonomy (JSError.domException "QuotaExceededError")).1 rfl,
   (saveData_quota_taxonomy (JSError.otherError "AbortError")).2.1 (by decide)⟩

/-- C10: `loadData` resolves to `null` for an absent key and for every
stored falsy value (`""`, `0`, `false`, `null`), so the caller cannot tell
these cases apart at the get interface. -/
theorem loadData_falsy_indistinguishable :
    loadData none = JSValue.jsNull ∧
    loadData (some (JSValue.jsStr "")) = loadData none ∧
    loadData (some (JSValue.jsNum 0)) = loadData none ∧
    loadData (some (JSValue.jsBool false)) = loadData none ∧
    loadData (some JSValue.jsNull) = loadData none := by decide

/-! ### Claim theorems: snippet derivation (C8) -/

theorem trimChars_length_le (l : List Char) : (trimChars l).length ≤ l.length := by
  unfold trimChars
  calc ((l.dropWhile isJSWhitespace).reverse.dropWhile isJSWhitespace).reverse.length
      = ((l.dropWhile isJSWhitespace).reverse.dropWhile isJSWhitespace).length := by simp
    _ ≤ (l.dropWhile isJSWhitespace).reverse.length :=
        ((List.dropWhile_suffix _).sublist).length_le
    _ = (l.dropWhile isJSWhitespace).length := by simp
    _ ≤ l.length := ((List.dropWhile_suffix _).sublist).length_le

/-- C8 counterexample: the claim's derivation (tags stripped, whitespace
collapsed, 150-char truncation, ellipsis) does not match the code in two
ways — the RDF branch hardcodes an empty `contentSnippet`, and the RSS
branch never collapses whitespace (it slices then trims). -/
theorem snippet_spec_counterexample :
    rdfSnippet "hello" = "" ∧
    specSnippet "hello" = "hello..." ∧
    rdfSnippet "hello" ≠ specSnippet "hello" ∧
    rssSnippet "a  b" = "a  b..." ∧
    specSnippet "a  b" = "a b..." ∧
    rssSnippet "a  b" ≠ specSnippet "a  b" := by decide

/-- C8 (amended): in the RSS and Atom branches the derived
`contentSnippet` is the tag-stripped body truncated to its first 150
characters, then trimmed of surrounding whitespace, with an ellipsis
appended — internal whitespace is preserved, not collapsed — and its core
(before the ellipsis) never exceeds 150 characters; the RDF branch leaves
`contentSnippet` empty. -/
theorem snippet_characterization (body : String) :
    rssSnippet body = atomSnippet body ∧
    rdfSnippet body = "" ∧
    (∃ core : List Char,
      rssSnippet body = core.asString ++ "..." ∧
      core = trimChars ((textContentOfHTML body).take 150) ∧
      core.length ≤ 150) := by
  refine ⟨rfl, rfl, trimChars ((textContentOfHTML body).take 150), rfl, rfl, ?_⟩
  calc (trimChars ((textContentOfHTML body).take 150)).length
      ≤ ((textContentOfHTML body).take 150).length := trimChars_length_le _
    _ ≤ 150 := by simp [List.length_take]

/-! ### Claim theorems: merge (C1) -/

/-- An existing item whose guid and link are both empty. -/
def c1Existing : FeedItem := { title := "old" }

def c1Feed : Feed := { url := "http://f", title := "F", items := [c1Existing], lastUpdated := 5 }

/-- A fetched item whose guid and link are both empty. -/
def c1Fetched : FeedItem := { title := "new" }

/-- C1 counterexample: the fetched item's guid is in the feed's existing
guid set and its link is in the existing link set, so by the claim the
new-entry set is empty and the feed must come back unchanged with
`lastUpdated` untouched — but the merge (duplicate checks are guarded by
JS truthiness, so empty guids and links never count as duplicates) adopts
the item and bumps `lastUpdated`. -/
theorem merge_empty_key_counterexample :
    c1Fetched.guid ∈ c1Feed.items.map (fun i => i.guid) ∧
    c1Fetched.link ∈ c1Feed.items.map (fun i => i.link) ∧
    mergeFeed false (fun _ => Except.error ()) 99 c1Feed [c1Fetched] ≠ c1Feed ∧
    (mergeFeed false (fun _ => Except.error ()) 99 c1Feed [c1Fetched]).lastUpdated = 99 ∧
    c1Feed.lastUpdated = 5 := by decide

/-- C1 (amended): with offline caching off, the newly-discovered entries
are exactly the fetched items whose guid, when non-empty, is not among the
existing items' guids and whose link, when non-empty, is not among the
existing items' links (an empty guid or link never counts as a duplicate),
each stamped with `id = guid-else-link` and the feed back-references; they
keep the fetched result's own order and, when the set is non-empty, are
prepended as a contiguous block before the unchanged existing items with
`lastUpdated` stamped to the current time; when it is empty the feed is
returned unchanged. -/
theorem merge_characterization (proc : String → Except Unit String) (now : Int)
    (feed : Feed) (fetchedItems : List FeedItem) :
    newItemsOf feed fetchedItems =
      (fetchedItems.filter fun i =>
        decide ((i.guid = "" ∨ ¬ i.guid ∈ feed.items.map fun e => e.guid) ∧
                (i.link = "" ∨ ¬ i.link ∈ feed.items.map fun e => e.link))).map
        (fun item => { item with
          id := if item.guid ≠ "" then item.guid else item.link
          feedTitle := feed.title, feedUrl := feed.url }) ∧
    (newItemsOf feed fetchedItems).Sublist
      (fetchedItems.map fun item => { item with
        id := if item.guid ≠ "" then item.guid else item.link
        feedTitle := feed.title, feedUrl := feed.url }) ∧
    (mergeFeed false proc now feed fetchedItems).items
        = newItemsOf feed fetchedItems ++ feed.items ∧
    (newItemsOf feed fetchedItems = [] →
      mergeFeed false proc now feed fetchedItems = feed) ∧
    (newItemsOf feed fetchedItems ≠ [] →
      mergeFeed false proc now feed fetchedItems
        = { feed with items := newItemsOf feed fetchedItems ++ feed.items,
                      lastUpdated := now }) := by
  refine ⟨?_, ?_, ?_⟩
  · unfold newItemsOf
    refine congrArg _ (List.filter_congr fun i _ => ?_)
    simp only [List.elem_eq_mem, Bool.not_and, Bool.and_eq_true, Bool.or_eq_true,
      Bool.not_eq_true', bne_eq_false_iff_eq, Bool.not_eq_true, decide_eq_true_eq]
    by_cases h1 : i.guid = "" <;> by_cases h2 : i.link = "" <;>
      by_cases h3 : i.guid ∈ feed.items.map fun e => e.guid <;>
      by_cases h4 : i.link ∈ feed.items.map fun e => e.link <;>
      simp [h1, h2, h3, h4]
  · unfold newItemsOf
    exact (List.filter_sublist _).map _
  · unfold mergeFeed
    simp only [Bool.false_and, Bool.false_eq_true, if_false]
    by_cases h : (newItemsOf feed fetchedItems).length > 0
    · have hne : newItemsOf feed fetchedItems ≠ [] := by
        intro h0; rw [h0] at h; simp at h
      simp [h, hne]
    · have h0 : newItemsOf feed fetchedItems = [] :=
        List.length_eq_zero.mp (Nat.eq_zero_of_not_pos h)
      simp [h, h0]

/-- Witness for C1 (the spec's merge literal): existing identity keys
`{g1, g2}`, fetch returns `[g1 (dup), g3, g4 (link dup of g2's item)]`;
the merged item order is `[g3, g1, g2]` and `lastUpdated` is bumped. -/
theorem merge_characterization_witness :
    ((mergeFeed false (fun _ => Except.error ()) 99
        { url := "http://f", title := "F",
          items := [{ guid := "g1", link := "http://x/1" },
                    { guid := "g2", link := "http://x/2" }],
          lastUpdated := 5 }
        [{ guid := "g1", link := "http://x/1b" },
         { guid := "g3", link := "http://x/3" },
         { guid := "g4", link := "http://x/2" }]).items.map fun i => i.guid)
      = ["g3", "g1", "g2"] ∧
    (mergeFeed false (fun _ => Except.error ()) 99
        { url := "http://f", title := "F",
          items := [{ guid := "g1", link := "http://x/1" },
                    { guid := "g2", link := "http://x/2" }],
          lastUpdated := 5 }
        [{ guid := "g1", link := "http://x/1b" },
         { guid := "g3", link := "http://x/3" },
         { guid := "g4", link := "http://x/2" }]).lastUpdated = 99 := by
  have h := (merge_characterization (fun _ => Except.error ()) 99
      { url := "http://f", title := "F",
        items := [{ guid := "g1", link := "http://x/1" },
                  { guid := "g2", link := "http://x/2" }],
        lastUpdated := 5 }
      [{ guid := "g1", link := "http://x/1b" },
       { guid := "g3", link := "http://x/3" },
       { guid := "g4", link := "http://x/2" }]).2.2.2.2 (by decide)
  rw [h]
  constructor <;> decide

/-! ### Helper lemmas for the retention & dedup sweep -/

theorem dedupGo_cons (seen : List String) (x : FeedItem) (t : List FeedItem) :
    dedupGo seen (x :: t) =
      if ¬ dedupKey x ∈ seen ∧ (x.link = "" ∨ ¬ x.link ∈ seen) then
        x :: dedupGo (if x.link = "" then dedupKey x :: seen
                      else dedupKey x :: x.link :: seen) t
      else dedupGo seen t := rfl

theorem dedupGo_sublist (seen : List String) (l : List FeedItem) :
    (dedupGo seen l).Sublist l := by
  induction l generalizing seen with
  | nil => simp [dedupGo]
  | cons x t ih =>
    rw [dedupGo_cons]
    split
    · exact (ih _).cons₂ x
    · exact (ih seen).cons x

theorem dedupGo_idem (l : List FeedItem) :
    ∀ seen, dedupGo seen (dedupGo seen l) = dedupGo seen l := by
  induction l with
  | nil => intro seen; simp [dedupGo]
  | cons x t ih =>
    intro seen
    by_cases hx : ¬ dedupKey x ∈ seen ∧ (x.link = "" ∨ ¬ x.link ∈ seen)
    · rw [dedupGo_cons, if_pos hx, dedupGo_cons, if_pos hx, ih]
    · rw [dedupGo_cons, if_neg hx, ih]

/-- Every item the dedup pass keeps has a key outside the initial seen set,
and a link outside it when non-empty. -/
theorem mem_dedupGo_unseen (l : List FeedItem) :
    ∀ seen, ∀ x ∈ dedupGo seen l,
      ¬ dedupKey x ∈ seen ∧ (x.link ≠ "" → ¬ x.link ∈ seen) := by
  induction l with
  | nil => intro seen x hx; simp [dedupGo] at hx
  | cons a t ih =>
    intro seen x hx
    rw [dedupGo_cons] at hx
    split at hx
    · next hkeep =>
      rcases List.mem_cons.mp hx with rfl | hx'
      · exact ⟨hkeep.1, fun hne => hkeep.2.resolve_left hne⟩
      · have h := ih _ x hx'
        by_cases hal : a.link = ""
        · rw [if_pos hal] at h
          exact ⟨fun hmem => h.1 (by simp [hmem]),
                 fun hne hmem => (h.2 hne) (by simp [hmem])⟩
        · rw [if_neg hal] at h
          exact ⟨fun hmem => h.1 (by simp [hmem]),
                 fun hne hmem => (h.2 hne) (by simp [hmem])⟩
    · exact ih seen x hx

/-- Item `x` collides with a previously kept item `y` in the dedup pass: `x`'s
key or non-empty link equals `y`'s key or non-empty link. -/
def dedupCollides (x y : FeedItem) : Prop :=
  dedupKey x = dedupKey y ∨ (y.link ≠ "" ∧ dedupKey x = y.link) ∨
  (x.link ≠ "" ∧ (x.link = dedupKey y ∨ (y.link ≠ "" ∧ x.link = y.link)))

instance (x y : FeedItem) : Decidable (dedupCollides x y) := by
  unfold dedupCollides; infer_instance

theorem dedupGo_pairwise (l : List FeedItem) :
    ∀ seen, (dedupGo seen l).Pairwise fun a b => ¬ dedupCollides b a := by
  induction l with
  | nil => intro seen; simp [dedupGo]
  | cons x t ih =>
    intro seen
    rw [dedupGo_cons]
    split
    · next hkeep =>
      refine List.Pairwise.cons (fun b hb => ?_) (ih _)
      have hb' := mem_dedupGo_unseen t _ b hb
      intro hcol
      rcases hcol with h | ⟨hxl, h⟩ | ⟨hbl, h | ⟨hxl, h⟩⟩
      · exact hb'.1 (by by_cases hal : x.link = "" <;> simp [hal, h])
      · exact hb'.1 (by simp [if_neg hxl, h])
      · exact (hb'.2 hbl) (by by_cases hal : x.link = "" <;> simp [hal, h])
      · exact (hb'.2 hbl) (by simp [if_neg hxl, h])
    · exact ih seen

/-- An input item is either kept by the dedup pass, or collides with a kept
item, or its key / non-empty link was already in the initial seen set. -/
theorem dedupGo_drop_reason (l : List FeedItem) :
    ∀ seen, ∀ x ∈ l,
      x ∈ dedupGo seen l ∨ (∃ y ∈ dedupGo seen l, dedupCollides x y) ∨
      dedupKey x ∈ seen ∨ (x.link ≠ "" ∧ x.link ∈ seen) := by
  induction l with
  | nil => intro seen x hx; cases hx
  | cons a t ih =>
    intro seen x hx
    by_cases hkeep : ¬ dedupKey a ∈ seen ∧ (a.link = "" ∨ ¬ a.link ∈ seen)
    · rw [dedupGo_cons, if_pos hkeep]
      rcases List.mem_cons.mp hx with rfl | hx'
      · exact Or.inl (List.mem_cons_self _ _)
      · rcases ih _ x hx' with h | ⟨y, hy, hcol⟩ | hkey | ⟨hxl, hlink⟩
        · exact Or.inl (List.mem_cons_of_mem _ h)
        · exact Or.inr (Or.inl ⟨y, List.mem_cons_of_mem _ hy, hcol⟩)
        · by_cases hal : a.link = ""
          · rw [if_pos hal] at hkey
            rcases List.mem_cons.mp hkey with heq | hmem
            · exact Or.inr (Or.inl ⟨a, List.mem_cons_self _ _, Or.inl heq⟩)
            · exact Or.inr (Or.inr (Or.inl hmem))
          · rw [if_neg hal] at hkey
            rcases List.mem_cons.mp hkey with heq | hkey'
            · exact Or.inr (Or.inl ⟨a, List.mem_cons_self _ _, Or.inl heq⟩)
            · rcases List.mem_cons.mp hkey' with heq | hmem
              · exact Or.inr (Or.inl ⟨a, List.mem_cons_self _ _,
                  Or.inr (Or.inl ⟨hal, heq⟩)⟩)
              · exact Or.inr (Or.inr (Or.inl hmem))
        · by_cases hal : a.link = ""
          · rw [if_pos hal] at hlink
            rcases List.mem_cons.mp hlink with heq | hmem
            · exact Or.inr (Or.inl ⟨a, List.mem_cons_self _ _,
                Or.inr (Or.inr ⟨hxl, Or.inl heq⟩)⟩)
            · exact Or.inr (Or.inr (Or.inr ⟨hxl, hmem⟩))
          · rw [if_neg hal] at hlink
            rcases List.mem_cons.mp hlink with heq | hlink'
            · exact Or.inr (Or.inl ⟨a, List.mem_cons_self _ _,
                Or.inr (Or.inr ⟨hxl, Or.inl heq⟩)⟩)
            · rcases List.mem_cons.mp hlink' with heq | hmem
              · exact Or.inr (Or.inl ⟨a, List.mem_cons_self _ _,
                  Or.inr (Or.inr ⟨hxl, Or.inr ⟨hal, heq⟩⟩)⟩)
              · exact Or.inr (Or.inr (Or.inr ⟨hxl, hmem⟩))
    · rw [dedupGo_cons, if_neg hkeep]
      rcases List.mem_cons.mp hx with rfl | hx'
      · -- the head itself was dropped against the initial seen set
        rcases not_and_or.mp hkeep with h | h
        · exact Or.inr (Or.inr (Or.inl (not_not.mp h)))
        · rcases not_or.mp h with ⟨hl, hmem⟩
          exact Or.inr (Or.inr (Or.inr ⟨hl, not_not.mp hmem⟩))
      · exact ih seen x hx'

theorem ageFilterFeed_items (pd : String → Option Int) (cutoff : Int) (f : Feed) :
    (ageFilterFeed pd cutoff f).items = f.items.filter (keepItem pd cutoff) := by
  simp only [ageFilterFeed]
  split
  · next h => exact ((List.filter_sublist f.items).eq_of_length h).symm
  · rfl

theorem dedupFeed_items (f : Feed) :
    (dedupFeed f).items = dedupItems f.items := by
  simp only [dedupFeed]
  split
  · next h => exact ((dedupGo_sublist [] f.items).eq_of_length h).symm
  · rfl

/-- One full per-feed sweep: age filter then dedup. -/
def sweepFeed (pd : String → Option Int) (cutoff : Int) (f : Feed) : Feed :=
  dedupFeed (ageFilterFeed pd cutoff f)

theorem sweepFeed_items (pd : String → Option Int) (cutoff : Int) (f : Feed) :
    (sweepFeed pd cutoff f).items = dedupItems (f.items.filter (keepItem pd cutoff)) := by
  rw [sweepFeed, dedupFeed_items, ageFilterFeed_items]

/-- A feed whose item count the sweep did not change is returned as the
very same feed value. -/
theorem sweepFeed_eq_self_of_length (pd : String → Option Int) (cutoff : Int) (f : Feed)
    (h : (sweepFeed pd cutoff f).items.length = f.items.length) :
    sweepFeed pd cutoff f = f := by
  rw [sweepFeed_items] at h
  have hd_le : (dedupItems (f.items.filter (keepItem pd cutoff))).length
      ≤ (f.items.filter (keepItem pd cutoff)).length :=
    (dedupGo_sublist [] _).length_le
  have hf_le : (f.items.filter (keepItem pd cutoff)).length ≤ f.items.length :=
    (List.filter_sublist f.items).length_le
  have hflen : (f.items.filter (keepItem pd cutoff)).length = f.items.length := by omega
  have hage : ageFilterFeed pd cutoff f = f := by
    simp only [ageFilterFeed]
    rw [if_pos hflen]
  rw [sweepFeed, hage]
  have hfilter : f.items.filter (keepItem pd cutoff) = f.items :=
    (List.filter_sublist f.items).eq_of_length hflen
  rw [hfilter] at h
  simp only [dedupFeed]
  rw [if_pos h]

theorem list_any_map' {α β : Type} (f : α → β) (l : List α) (p : β → Bool) :
    (l.map f).any p = l.any fun a => p (f a) := by
  induction l with
  | nil => rfl
  | cons a t ih => simp [List.any_cons, ih]

theorem cleanup_eq_map (pd : String → Option Int) (now : Int) (feeds : List Feed) :
    cleanupOldArticles pd now feeds
      = feeds.map (sweepFeed pd (now - 30 * 24 * 60 * 60 * 1000)) := by
  have hzip : ∀ (l : List Feed),
      l.zip ((l.map (ageFilterFeed pd (now - 30 * 24 * 60 * 60 * 1000))).map dedupFeed)
        = l.map fun f => (f, sweepFeed pd (now - 30 * 24 * 60 * 60 * 1000) f) := by
    intro l
    induction l with
    | nil => rfl
    | cons a t ih =>
      simp only [List.map_cons, List.zip_cons_cons]
      rw [ih]
      rfl
  simp only [cleanupOldArticles]
  rw [hzip, list_any_map']
  split
  · rw [List.map_map]
    rfl
  · next h =>
    rw [Bool.not_eq_true, List.any_eq_false] at h
    symm
    have hid : ∀ f ∈ feeds, sweepFeed pd (now - 30 * 24 * 60 * 60 * 1000) f = f := by
      intro f hf
      have hlen := h f hf
      simp only [Bool.not_eq_true, bne_eq_false_iff_eq] at hlen
      exact sweepFeed_eq_self_of_length _ _ _ hlen
    calc feeds.map (sweepFeed pd (now - 30 * 24 * 60 * 60 * 1000))
        = feeds.map id := List.map_congr_left hid
      _ = feeds := List.map_id feeds

theorem keepItem_spec (pd : String → Option Int) (cutoff : Int) (item : FeedItem)
    (h : keepItem pd cutoff item = true) :
    item.isFavorite = true ∨ item.isReadLater = true ∨ pd item.pubDate = none ∨
    ∃ t, pd item.pubDate = some t ∧ cutoff ≤ t := by
  unfold keepItem at h
  by_cases hf : (item.isFavorite || item.isReadLater) = true
  · rcases Bool.or_eq_true_iff.mp hf with h1 | h1
    · exact Or.inl h1
    · exact Or.inr (Or.inl h1)
  · rw [if_neg hf] at h
    cases hpd : pd item.pubDate with
    | none => exact Or.inr (Or.inr (Or.inl rfl))
    | some t =>
      rw [hpd] at h
      simp only [decide_eq_true_eq] at h
      exact Or.inr (Or.inr (Or.inr ⟨t, rfl, le_of_lt h⟩))

/-! ### Claim theorems: sweep (C3, C4, C5) -/

/-- C3: every item retained by the retention-and-dedup sweep is favorite
or read-later, or has a pubDate that fails to parse, or has a pubDate
parsing to an instant not older than 30 days before the current time. -/
theorem cleanup_retained_items (pd : String → Option Int) (now : Int)
    (feeds : List Feed) (feed : Feed) (item : FeedItem)
    (hfeed : feed ∈ cleanupOldArticles pd now feeds)
    (hitem : item ∈ feed.items) :
    item.isFavorite = true ∨ item.isReadLater = true ∨ pd item.pubDate = none ∨
    ∃ t, pd item.pubDate = some t ∧ now - 30 * 24 * 60 * 60 * 1000 ≤ t := by
  rw [cleanup_eq_map] at hfeed
  rcases List.mem_map.mp hfeed with ⟨f, hf, rfl⟩
  rw [sweepFeed_items] at hitem
  have h1 := (dedupGo_sublist [] _).subset hitem
  exact keepItem_spec pd _ item (List.of_mem_filter h1)

def c3Item : FeedItem := { title := "a", pubDate := "not a date" }

def c3Feed : Feed := { url := "http://c3", items := [c3Item] }

set_option maxHeartbeats 1000000 in
/-- Witness for C3: with a date parser that parses nothing, a plain item
survives the sweep and indeed falls under the "unparseable pubDate"
disjunct. -/
theorem cleanup_retained_items_witness :
    c3Item.isFavorite = true ∨ c3Item.isReadLater = true ∨
    (fun _ : String => (none : Option Int)) c3Item.pubDate = none ∨
    ∃ t, (fun _ : String => (none : Option Int)) c3Item.pubDate = some t ∧
      (0 : Int) - 30 * 24 * 60 * 60 * 1000 ≤ t :=
  cleanup_retained_items (fun _ => none) 0 [c3Feed] c3Feed c3Item
    (by decide) (by decide)

def c4A : FeedItem := { guid := "g1", link := "http://x" }

def c4B : FeedItem := { guid := "http://x", link := "http://y" }

/-- C4 counterexample: `c4B`'s identity key (`"http://x"`) differs from
`c4A`'s and its link (`"http://y"`) differs from `c4A`'s link, so by the
claim the dedup pass must keep it — but the pass keeps one shared seen-set
for keys *and* links, `c4A`'s link equals `c4B`'s key, and `c4B` is
dropped. -/
theorem dedup_cross_collision_counterexample :
    dedupItems [c4A, c4B] = [c4A] ∧
    c4B ≠ c4A ∧
    dedupKey c4B ≠ dedupKey c4A ∧
    c4B.link ≠ c4A.link ∧
    c4B.link ≠ "" := by decide

/-- C4 (amended): the dedup pass scans in existing array order and keeps a
subsequence of the items; among kept items no later one collides with an
earlier one (equal keys, equal non-empty links, or a key equal to a
non-empty link in either direction); and an item is only ever dropped
because its key or non-empty link collides with a kept item's key or
non-empty link — never for any other reason. -/
theorem dedup_characterization (l : List FeedItem) :
    (dedupItems l).Sublist l ∧
    (dedupItems l).Pairwise (fun a b => ¬ dedupCollides b a) ∧
    (∀ x ∈ l, x ∈ dedupItems l ∨ ∃ y ∈ dedupItems l, dedupCollides x y) := by
  refine ⟨dedupGo_sublist [] l, dedupGo_pairwise l [], fun x hx => ?_⟩
  rcases dedupGo_drop_reason l [] x hx with h | h | h | ⟨_, h⟩
  · exact Or.inl h
  · exact Or.inr h
  · cases h
  · cases h

/-- Witness for C4: on the counterexample pair, the kept list is a
subsequence, `c4B` is dropped, and the drop is explained by its collision
with the kept `c4A`. -/
theorem dedup_characterization_witness :
    (dedupItems [c4A, c4B]).Sublist [c4A, c4B] ∧
    dedupItems [c4A, c4B] = [c4A] ∧
    dedupCollides c4B c4A :=
  ⟨(dedup_characterization [c4A, c4B]).1, by decide, by decide⟩

set_option maxHeartbeats 2000000 in
/-- C5: for a fixed current time, the retention-and-dedup sweep is
idempotent — applying it twice yields the same feed list (hence the same
per-feed item lists) as applying it once. -/
theorem cleanup_idempotent (pd : String → Option Int) (now : Int) (feeds : List Feed) :
    cleanupOldArticles pd now (cleanupOldArticles pd now feeds)
      = cleanupOldArticles pd now feeds := by
  rw [cleanup_eq_map, cleanup_eq_map, List.map_map]
  refine List.map_congr_left fun f _ => ?_
  -- one sweep of an already swept feed changes nothing
  set c := now - 30 * 24 * 60 * 60 * 1000 with hc
  have hitems : (sweepFeed pd c f).items
      = dedupItems (f.items.filter (keepItem pd c)) := sweepFeed_items pd c f
  have hkeep : ∀ x ∈ (sweepFeed pd c f).items, keepItem pd c x = true := by
    intro x hx
    rw [hitems] at hx
    exact List.of_mem_filter ((dedupGo_sublist [] _).subset hx)
  have hfilter : (sweepFeed pd c f).items.filter (keepItem pd c)
      = (sweepFeed pd c f).items := List.filter_eq_self.mpr hkeep
  have hdedup : dedupItems (sweepFeed pd c f).items = (sweepFeed pd c f).items := by
    rw [hitems]
    exact dedupGo_idem _ []
  show sweepFeed pd c (sweepFeed pd c f) = sweepFeed pd c f
  have hage : ageFilterFeed pd c (sweepFeed pd c f) = sweepFeed pd c f := by
    simp only [ageFilterFeed]
    rw [hfilter]
    simp
  rw [sweepFeed, hage]
  simp only [dedupFeed]
  rw [hdedup]
  simp

/-! ### Helper lemmas for the refresh orchestrator -/

theorem mergeFeed_url (d : Bool) (proc : String → Except Unit String) (now : Int)
    (f : Feed) (its : List FeedItem) : (mergeFeed d proc now f its).url = f.url := by
  simp only [mergeFeed]
  split <;> split <;> rfl

theorem refreshOne_url (fetchResult : String → Except String (List FeedItem))
    (d : Bool) (proc : String → Except Unit String) (now : Int) (f : Feed) :
    (refreshOne fetchResult d proc now f).url = f.url := by
  unfold refreshOne
  cases fetchResult f.url with
  | ok its => exact mergeFeed_url d proc now f its
  | error e => rfl

theorem find?_congr' {α : Type} (p q : α → Bool) (l : List α)
    (h : ∀ x ∈ l, p x = q x) : l.find? p = l.find? q := by
  induction l with
  | nil => rfl
  | cons a t ih =>
    have ha := h a (by simp)
    by_cases hpa : p a = true
    · rw [List.find?_cons_of_pos _ hpa, List.find?_cons_of_pos _ (ha ▸ hpa)]
    · rw [List.find?_cons_of_neg _ hpa, List.find?_cons_of_neg _ (ha ▸ hpa),
        ih fun x hx => h x (by simp [hx])]

theorem find?_eq_of_unique {α : Type} (p : α → Bool) (l : List α) (g : α)
    (hg : g ∈ l) (hpg : p g = true) (huniq : ∀ x ∈ l, p x = true → x = g) :
    l.find? p = some g := by
  induction l with
  | nil => cases hg
  | cons a t ih =>
    by_cases hpa : p a = true
    · rw [List.find?_cons_of_pos _ hpa, huniq a (by simp) hpa]
    · have hgt : g ∈ t := by
        rcases List.mem_cons.mp hg with rfl | h
        · exact absurd hpg hpa
        · exact h
      rw [List.find?_cons_of_neg _ hpa]
      exact ih hgt fun x hx hpx => huniq x (by simp [hx]) hpx

/-- Key lemma for the reassembly step: with a url-preserving per-feed
transform and no duplicate urls, looking a feed's url up in the results
map finds exactly that feed's own result when the feed passed the filter,
and nothing otherwise. -/
theorem jsMapGet_filter_map (q : Feed → Bool) (G : Feed → Feed)
    (hG : ∀ x, (G x).url = x.url) (feeds : List Feed)
    (hnodup : (feeds.map fun f => f.url).Nodup) (f : Feed) (hf : f ∈ feeds) :
    jsMapGet ((feeds.filter q).map G) f.url
      = if q f then some (G f) else none := by
  have hinj : ∀ x ∈ feeds, ∀ y ∈ feeds, x.url = y.url → x = y := by
    intro x hx y hy hxy
    exact List.inj_on_of_nodup_map hnodup hx hy hxy
  unfold jsMapGet
  rw [← List.map_reverse, List.find?_map]
  rw [find?_congr' _ (fun x => decide (x.url = f.url)) _ (by
    intro x hx
    simp [Function.comp, hG])]
  by_cases hq : q f = true
  · rw [if_pos hq]
    have hmemfil : f ∈ feeds.filter q := List.mem_filter.mpr ⟨hf, hq⟩
    have hsome := find?_eq_of_unique (fun x => decide (x.url = f.url))
      (feeds.filter q).reverse f
      (List.mem_reverse.mpr hmemfil) (by simp)
      (fun x hx hpx =>
        hinj x (List.mem_of_mem_filter (List.mem_reverse.mp hx)) f hf
          (of_decide_eq_true hpx))
    rw [hsome]
    rfl
  · rw [if_neg hq]
    have hnone : (feeds.filter q).reverse.find?
        (fun x => decide (x.url = f.url)) = none := by
      refine List.find?_eq_none.mpr fun x hx hpx => ?_
      have hxf : x ∈ feeds.filter q := List.mem_reverse.mp hx
      have hxeq : x = f :=
        hinj x (List.mem_of_mem_filter hxf) f hf (of_decide_eq_true hpx)
      have hxpred := List.of_mem_filter hxf
      rw [hxeq] at hxpred
      exact hq hxpred
    rw [hnone]
    rfl

theorem refreshOne_error (fetchResult : String → Except String (List FeedItem))
    (d : Bool) (proc : String → Except Unit String) (now : Int) (f : Feed)
    (e : String) (h : fetchResult f.url = Except.error e) :
    refreshOne fetchResult d proc now f = f := by
  unfold refreshOne
  rw [h]

/-! ### Claim theorem: refresh frame (C7) -/

/-- C7: one refresh run maps the collection pointwise — the result has the
same length and the same url sequence (original order, keyed by url);
every `local://` feed comes back unchanged at its position; every feed
whose strategy chain was exhausted comes back unchanged at its position
(each position depends only on that feed's own outcome, so no failure
aborts the rest); and the failure counter equals the number of non-local
feeds whose fetch failed. -/
theorem refreshAll_frame (fetchResult : String → Except String (List FeedItem))
    (downloadImages : Bool) (proc : String → Except Unit String) (now : Int)
    (feeds : List Feed)
    (hnodup : (feeds.map fun f => f.url).Nodup) :
    (handleRefreshAll fetchResult downloadImages proc now feeds).1
      = feeds.map (fun f => if startsWithLocal f.url then f
          else refreshOne fetchResult downloadImages proc now f) ∧
    (handleRefreshAll fetchResult downloadImages proc now feeds).1.length
      = feeds.length ∧
    ((handleRefreshAll fetchResult downloadImages proc now feeds).1.map fun f => f.url)
      = (feeds.map fun f => f.url) ∧
    (∀ (i : Nat) (hi : i < feeds.length),
      (startsWithLocal feeds[i].url = true →
        (handleRefreshAll fetchResult downloadImages proc now feeds).1[i]?
          = some feeds[i]) ∧
      (∀ e, fetchResult feeds[i].url = Except.error e →
        (handleRefreshAll fetchResult downloadImages proc now feeds).1[i]?
          = some feeds[i])) ∧
    (handleRefreshAll fetchResult downloadImages proc now feeds).2
      = (feeds.filter fun f => !startsWithLocal f.url).countP fun f =>
          match fetchResult f.url with
          | .ok _ => false
          | .error _ => true := by
  have hmain : (handleRefreshAll fetchResult downloadImages proc now feeds).1
      = feeds.map (fun f => if startsWithLocal f.url then f
          else refreshOne fetchResult downloadImages proc now f) := by
    simp only [handleRefreshAll]
    by_cases hempty : (feeds.filter fun f => !startsWithLocal f.url).isEmpty = true
    · rw [if_pos hempty]
      have hall : ∀ f ∈ feeds, startsWithLocal f.url = true := by
        intro f hf
        by_contra hnf
        have hmem : f ∈ feeds.filter fun f => !startsWithLocal f.url :=
          List.mem_filter.mpr ⟨hf, by simp [Bool.not_eq_true] at hnf ⊢; exact hnf⟩
        rw [List.isEmpty_iff] at hempty
        rw [hempty] at hmem
        cases hmem
      symm
      calc feeds.map (fun f => if startsWithLocal f.url then f
              else refreshOne fetchResult downloadImages proc now f)
          = feeds.map id := List.map_congr_left fun f hf => by
            rw [if_pos (hall f hf)]; rfl
        _ = feeds := List.map_id feeds
    · rw [if_neg hempty]
      dsimp only
      refine List.map_congr_left fun f hf => ?_
      rw [jsMapGet_filter_map (fun x => !startsWithLocal x.url)
        (refreshOne fetchResult downloadImages proc now)
        (refreshOne_url fetchResult downloadImages proc now) feeds hnodup f hf]
      by_cases hloc : startsWithLocal f.url
      · simp [hloc]
      · simp [hloc]
  refine ⟨hmain, ?_, ?_, ?_, ?_⟩
  · rw [hmain, List.length_map]
  · rw [hmain, List.map_map]
    refine List.map_congr_left fun f hf => ?_
    by_cases hloc : startsWithLocal f.url
    · simp [Function.comp, hloc]
    · simp [Function.comp, hloc, refreshOne_url]
  · intro i hi
    constructor
    · intro hloc
      rw [hmain, List.getElem?_map, List.getElem?_eq_getElem hi]
      simp [hloc]
    · intro e herr
      rw [hmain, List.getElem?_map, List.getElem?_eq_getElem hi]
      by_cases hloc : startsWithLocal feeds[i].url
      · simp [hloc]
      · simp [hloc, refreshOne_error fetchResult downloadImages proc now feeds[i] e herr]
  · simp only [handleRefreshAll]
    by_cases hempty : (feeds.filter fun f => !startsWithLocal f.url).isEmpty = true
    · rw [if_pos hempty]
      rw [List.isEmpty_iff.mp hempty]
      rfl
    · rw [if_neg hempty]

def c7Fetch : String → Except String (List FeedItem) := fun u =>
  if u = "http://ok" then Except.ok [{ title := "n", guid := "g9", link := "http://n" }]
  else Except.error "HTTP 500"

def c7Feeds : List Feed :=
  [{ url := "local://guide" }, { url := "http://bad" }, { url := "http://ok" }]

/-- Witness for C7: a batch with one local feed, one feed whose chain is
exhausted and one succeeding feed; the collection comes back pointwise
(local and failed feeds unchanged in place) and the failure counter is 1. -/
theorem refreshAll_frame_witness :
    (handleRefreshAll c7Fetch false (fun _ => Except.error ()) 99 c7Feeds).1
      = c7Feeds.map (fun f => if startsWithLocal f.url then f
          else refreshOne c7Fetch false (fun _ => Except.error ()) 99 f) ∧
    (handleRefreshAll c7Fetch false (fun _ => Except.error ()) 99 c7Feeds).2 = 1 :=
  ⟨(refreshAll_frame c7Fetch false (fun _ => Except.error ()) 99 c7Feeds (by decide)).1,
   by decide⟩

end RSSFlow
